import Mathlib

set_option maxRecDepth 100000

/-!
Verification of the key codec of `rust-viacoin` (`src/util/key.rs`):
Wallet Import Format (WIF) encoding/decoding of private keys and
SEC1-style serialization/deserialization of public keys.

The elliptic-curve backend (the `secp256k1` crate) and the Base58Check
text codec (`util::base58`) are external collaborators of the file under
study; they are modelled from the specification where their behaviour is
needed, while every function of `key.rs` itself is translated directly.
-/

/-- A byte, as moved around by `key.rs`. -/
abbrev Byte := Fin 256

/-- Truncate a natural number to a byte. -/
def mkByte (n : Nat) : Byte := ⟨n % 256, Nat.mod_lt n (by decide)⟩

/-- Big-endian interpretation of a byte string as a natural number. -/
def beToNat (bs : List Byte) : Nat := bs.foldl (fun a b => a * 256 + b.val) 0

/-- Big-endian bytes of a natural number, `k` bytes wide. -/
def natToBeBytes : Nat → Nat → List Byte
  | 0, _ => []
  | k + 1, n => natToBeBytes k (n / 256) ++ [mkByte n]

/-- The field characteristic of the secp256k1 curve. -/
def pSecp : Nat := 0xfffffffffffffffffffffffffffffffffffffffffffffffffffffffefffffc2f

/-- The group order of the secp256k1 curve. -/
def secpOrder : Nat := 0xfffffffffffffffffffffffffffffffebaaedce6af48a03bbfd25e8cd0364141

/-- The secp256k1 curve equation `y^2 = x^3 + 7` over the field of
characteristic `pSecp`. -/
def onCurve (x y : Nat) : Prop := (y * y) % pSecp = (x * x % pSecp * x + 7) % pSecp

instance (x y : Nat) : Decidable (onCurve x y) := Nat.decEq _ _

/-- Modelled from the spec: a point of the secp256k1 curve, the value
wrapped by `secp256k1::PublicKey` (cryptographic backend, an external
collaborator): affine coordinates below the field characteristic that
satisfy the curve equation. -/
def Point := {xy : Nat × Nat // xy.1 < pSecp ∧ xy.2 < pSecp ∧ onCurve xy.1 xy.2}

instance : DecidableEq Point := Subtype.instDecidableEq

/-- Modelled from the spec: a `secp256k1::SecretKey` (cryptographic
backend): 32 big-endian bytes forming a nonzero scalar below the curve
order. -/
def SecretKey := {bs : List Byte // bs.length = 32 ∧ 0 < beToNat bs ∧ beToNat bs < secpOrder}

instance : DecidableEq SecretKey := Subtype.instDecidableEq

/-- The error type of the cryptographic backend (`secp256k1::Error`),
restricted to the variants reachable from `key.rs`. -/
inductive SecpError
  | InvalidSecretKey
  | InvalidPublicKey
deriving DecidableEq

/-- The variants of `base58::Error` reachable from `key.rs`, following
the spec's error taxonomy for the codec-side failures. -/
inductive Base58Error
  | InvalidCharacter
  | ChecksumMismatch
  | InvalidLength (n : Nat)
  | InvalidVersion (v : List Byte)
deriving DecidableEq

/-- `consensus::encode::Error`, restricted to the variants reachable
from `key.rs`: a wrapped Base58 error or a wrapped backend error. -/
inductive EncodeError
  | Base58 (e : Base58Error)
  | Secp256k1 (e : SecpError)
deriving DecidableEq

/-- The network enum of `network::constants`, as matched on by
`PrivateKey::fmt_wif`. -/
inductive Network
  | Bitcoin
  | Testnet
  | Regtest
deriving DecidableEq

/-- Modelled from the spec: `secp256k1::SecretKey::from_slice` — accepts
exactly the 32-byte strings whose big-endian value is nonzero and below
the curve order. -/
def SecretKey.from_slice (data : List Byte) : Except SecpError SecretKey :=
  if h : data.length = 32 ∧ 0 < beToNat data ∧ beToNat data < secpOrder then
    .ok ⟨data, h⟩
  else
    .error .InvalidSecretKey

/-- Modular exponentiation by repeated squaring, on `fuel` exponent bits. -/
def powModAux : Nat → Nat → Nat → Nat → Nat
  | 0, _, _, m => 1 % m
  | fuel + 1, b, e, m =>
    if e = 0 then 1 % m
    else
      let h := powModAux fuel ((b * b) % m) (e / 2) m
      if e % 2 = 1 then (h * b) % m else h

/-- Modular exponentiation `b ^ e % m` for exponents below `2 ^ 300`. -/
def powMod (b e m : Nat) : Nat := powModAux 300 b e m

/-- Modelled from the spec: `secp256k1::PublicKey::from_slice`
(cryptographic backend) — SEC1 point deserialization. A 65-byte string
with marker byte 4 carries both affine coordinates, which must be below
the field characteristic and on the curve; a 33-byte string with marker
byte 2 or 3 carries the X coordinate, and the Y coordinate of matching
parity is recovered by a modular square root. Every other input is
rejected as an invalid point. -/
def parsePoint (data : List Byte) : Except SecpError Point :=
  if data.length = 65 ∧ data.headI.val = 4 then
    let x := beToNat ((data.drop 1).take 32)
    let y := beToNat (data.drop 33)
    if hc : x < pSecp ∧ y < pSecp ∧ onCurve x y then .ok ⟨(x, y), hc⟩
    else .error .InvalidPublicKey
  else if data.length = 33 ∧ (data.headI.val = 2 ∨ data.headI.val = 3) then
    let x := beToNat (data.drop 1)
    let ysq := (x * x % pSecp * x + 7) % pSecp
    let y0 := powMod ysq ((pSecp + 1) / 4) pSecp
    let y := if y0 % 2 = data.headI.val % 2 then y0 else (pSecp - y0) % pSecp
    if hc : x < pSecp ∧ y < pSecp ∧ onCurve x y ∧ y % 2 = data.headI.val % 2 then
      .ok ⟨(x, y), hc.1, hc.2.1, hc.2.2.1⟩
    else .error .InvalidPublicKey
  else .error .InvalidPublicKey

/-- Modelled from the spec: `secp256k1::PublicKey::serialize`
(cryptographic backend) — compressed SEC1 encoding: a parity marker byte
(2 for even Y, 3 for odd Y) followed by the 32 big-endian bytes of X. -/
def Point.serialize (pt : Point) : List Byte :=
  (if pt.val.2 % 2 = 0 then (2 : Byte) else 3) :: natToBeBytes 32 pt.val.1

/-- Modelled from the spec: `secp256k1::PublicKey::serialize_uncompressed`
(cryptographic backend) — uncompressed SEC1 encoding: marker byte 4
followed by the 32 big-endian bytes of X and of Y. -/
def Point.serialize_uncompressed (pt : Point) : List Byte :=
  (4 : Byte) :: (natToBeBytes 32 pt.val.1 ++ natToBeBytes 32 pt.val.2)

/-- `PublicKey` of `key.rs`: a compression flag and the backend point. -/
structure PublicKey where
  compressed : Bool
  key : Point
deriving DecidableEq

/-- `PublicKey::write_into` / `PublicKey::to_bytes` (key.rs lines 38-52):
serialize compressed or uncompressed according to the flag. -/
def PublicKey.to_bytes (k : PublicKey) : List Byte :=
  if k.compressed then k.key.serialize else k.key.serialize_uncompressed

/-- The continuation of `PublicKey::from_slice` once the compression flag
is known: hand the bytes to the backend and pair the result with the flag. -/
def PublicKey.withParsedPoint (data : List Byte) (compressed : Bool) : Except EncodeError PublicKey :=
  match parsePoint data with
  | .error e => .error (.Secp256k1 e)
  | .ok key => .ok ⟨compressed, key⟩

/-- `PublicKey::from_slice` (key.rs lines 55-66): 33 bytes means
compressed, 65 bytes means uncompressed, anything else is
`InvalidLength` carrying the observed length; then the backend parses
the point. -/
def PublicKey.from_slice (data : List Byte) : Except EncodeError PublicKey :=
  if data.length = 33 then PublicKey.withParsedPoint data true
  else if data.length = 65 then PublicKey.withParsedPoint data false
  else .error (.Base58 (.InvalidLength data.length))

/-- Value of a hexadecimal digit character, if it is one. -/
def hexDigit (c : Char) : Option Nat :=
  if 48 ≤ c.toNat ∧ c.toNat ≤ 57 then some (c.toNat - 48)
  else if 97 ≤ c.toNat ∧ c.toNat ≤ 102 then some (c.toNat - 87)
  else if 65 ≤ c.toNat ∧ c.toNat ≤ 70 then some (c.toNat - 55)
  else none

/-- Hexadecimal decoding of a character list, two digits per byte. -/
def hexDecodeList : List Char → Option (List Byte)
  | [] => some []
  | [_] => none
  | c1 :: c2 :: rest =>
    match hexDigit c1, hexDigit c2, hexDecodeList rest with
    | some h, some l, some tail => some (mkByte (16 * h + l) :: tail)
    | _, _, _ => none

/-- Modelled from the spec: the hexadecimal decode step that
`secp256k1::PublicKey::from_str` (cryptographic backend) performs before
point parsing. -/
def hexDecode (s : String) : Option (List Byte) := hexDecodeList s.data

/-- `impl FromStr for PublicKey` (key.rs lines 89-98): delegate to the
backend string parser (hexadecimal decode, then point parsing) and set
`compressed` from the character count of the input (66 characters means
compressed). -/
def PublicKey.from_str (s : String) : Except EncodeError PublicKey :=
  match hexDecode s with
  | none => .error (.Secp256k1 .InvalidPublicKey)
  | some bytes =>
    match parsePoint bytes with
    | .error e => .error (.Secp256k1 e)
    | .ok key => .ok ⟨s.length == 66, key⟩

/-- Modelled from the spec: the `Secp256k1` context object that `key.rs`
receives as a parameter, reduced to the one capability used here — the
backend's scalar multiplication `secp256k1::PublicKey::from_secret_key`. -/
structure Secp256k1 where
  from_secret_key : SecretKey → Point

/-- `PrivateKey` of `key.rs`: compression flag, network, backend scalar. -/
structure PrivateKey where
  compressed : Bool
  network : Network
  key : SecretKey
deriving DecidableEq

/-- `PrivateKey::public_key` (key.rs lines 113-118): the backend's scalar
multiplication, paired with this key's compression flag. -/
def PrivateKey.public_key (sk : PrivateKey) (secp : Secp256k1) : PublicKey :=
  { compressed := sk.compressed
    key := secp.from_secret_key sk.key }

/-- `PublicKey::from_private_key` (key.rs lines 69-71): delegates to
`PrivateKey::public_key`. -/
def PublicKey.from_private_key (secp : Secp256k1) (sk : PrivateKey) : PublicKey :=
  sk.public_key secp

/-- Modelled from the spec: the Base58Check codec (`util::base58`, whose
source is not under `src/`). `check_encode_slice` appends a four-byte
checksum (first four bytes of a double cryptographic hash of the
payload) and Base58-encodes the result; `from_check` decodes, verifies
the checksum and strips it, returning the original payload — so decoding
a string produced by `check_encode_slice` yields exactly the encoded
payload. Failures of `from_check` on other strings surface as
`InvalidCharacter` or `ChecksumMismatch` and are left unconstrained. -/
structure Base58Check where
  check_encode_slice : List Byte → String
  from_check : String → Except Base58Error (List Byte)
  from_check_encode : ∀ bs, from_check (check_encode_slice bs) = .ok bs

/-- The version-byte table of `PrivateKey::fmt_wif` (key.rs lines
128-131). -/
def versionByte : Network → Byte
  | .Bitcoin => 199
  | .Testnet | .Regtest => 239

/-- The version-byte table of `PrivateKey::from_wif` (key.rs lines
160-164): 199 is Bitcoin, 239 is Testnet, anything else is
`InvalidVersion` carrying the offending byte. -/
def decodeVersionByte (b : Byte) : Except Base58Error Network :=
  if b = 199 then .ok .Bitcoin
  else if b = 239 then .ok .Testnet
  else .error (.InvalidVersion [b])

/-- Write the bytes of `src` into `l` starting at index `i`
(`ret[i..i+src.len()].copy_from_slice(src)`). -/
def setRange (l : List Byte) (i : Nat) (src : List Byte) : List Byte :=
  match src with
  | [] => l
  | b :: rest => setRange (l.set i b) (i + 1) rest

/-- The payload built by `PrivateKey::fmt_wif` (key.rs lines 126-140): a
34-byte buffer receives the version byte at index 0 and the scalar bytes
at indices 1 to 32; a compressed key marks index 33 with 1 and hands all
34 bytes to Base58Check, an uncompressed key hands over the first 33. -/
def PrivateKey.wifPayload (sk : PrivateKey) : List Byte :=
  let ret : List Byte := List.replicate 34 0
  let ret := ret.set 0 (versionByte sk.network)
  let ret := setRange ret 1 sk.key.val
  if sk.compressed then ret.set 33 1 else ret.take 33

/-- `PrivateKey::to_wif` / `fmt_wif` (key.rs lines 126-148): Base58Check
encoding of the WIF payload. -/
def PrivateKey.to_wif (c : Base58Check) (sk : PrivateKey) : String :=
  c.check_encode_slice sk.wifPayload

/-- The tail of `PrivateKey::from_wif` once the payload length has fixed
the compression flag: read the network from byte 0 and the scalar from
bytes 1 to 32, letting the backend validate the scalar. -/
def PrivateKey.readPayload (data : List Byte) (compressed : Bool) : Except EncodeError PrivateKey :=
  match decodeVersionByte data.headI with
  | .error e => .error (.Base58 e)
  | .ok network =>
    match SecretKey.from_slice ((data.drop 1).take 32) with
    | .error e => .error (.Secp256k1 e)
    | .ok key => .ok ⟨compressed, network, key⟩

/-- `PrivateKey::from_wif` (key.rs lines 151-171): Base58Check decode,
then the length gate (33 uncompressed, 34 compressed, otherwise
`InvalidLength`), then version byte and scalar. -/
def PrivateKey.from_wif (c : Base58Check) (wif : String) : Except EncodeError PrivateKey :=
  match c.from_check wif with
  | .error e => .error (.Base58 e)
  | .ok data =>
    if data.length = 33 then PrivateKey.readPayload data false
    else if data.length = 34 then PrivateKey.readPayload data true
    else .error (.Base58 (.InvalidLength data.length))

/-- `impl fmt::Debug for PrivateKey` (key.rs lines 180-184): the fixed
redaction string, independent of the key. -/
def PrivateKey.debug_fmt (_ : PrivateKey) : String := "[private key data]"

instance {ε α : Type} [DecidableEq ε] [DecidableEq α] : DecidableEq (Except ε α) := fun a b =>
  match a, b with
  | .ok x, .ok y => decidable_of_iff (x = y) (by simp)
  | .error x, .error y => decidable_of_iff (x = y) (by simp)
  | .ok _, .error _ => isFalse (by simp)
  | .error _, .ok _ => isFalse (by simp)

/-- A byte rendered as the character of its code point (used by the
concrete test codec below). -/
def byteChar (b : Byte) : Char := Char.ofNat b.val

/-- A character collapsed back to a byte (used by the concrete test
codec below). -/
def charByte (c : Char) : Byte := mkByte c.toNat

/-- A concrete `Base58Check` instance for evaluating the codec-parametric
functions on explicit inputs: each payload byte becomes one character. -/
def byteStrCodec : Base58Check where
  check_encode_slice bs := String.mk (bs.map byteChar)
  from_check s := .ok (s.data.map charByte)
  from_check_encode := by
    intro bs
    have hb : ∀ b : Byte, charByte (byteChar b) = b := by
      intro b
      have hlt : b.val < 55296 := lt_trans b.isLt (by norm_num)
      have hv : (b.val).isValidChar := Or.inl hlt
      have h : (Char.ofNat b.val).toNat = b.val := by
        simp [Char.ofNat, hv, Char.ofNatAux, Char.toNat, UInt32.toNat, BitVec.toNat_ofNatLt]
      simp only [charByte, byteChar, h, mkByte]
      exact Fin.ext (Nat.mod_eq_of_lt b.isLt)
    show Except.ok (List.map charByte (List.map byteChar bs)) = Except.ok bs
    rw [List.map_map]
    congr 1
    exact List.map_id'' (fun b => hb b) bs

/-- The scalar 1 as a `SecretKey`. -/
def skOne : SecretKey := ⟨List.replicate 31 0 ++ [1], by decide⟩

/-- A concrete compressed main-network private key. -/
def pMain : PrivateKey := ⟨true, .Bitcoin, skOne⟩

/-- A concrete uncompressed regtest private key. -/
def pReg : PrivateKey := ⟨false, .Regtest, skOne⟩

/-- X coordinate of the secp256k1 generator. -/
def gx : Nat := 0x79be667ef9dcbbac55a06295ce870b07029bfcdb2dce28d959f2815b16f81798

/-- Y coordinate of the secp256k1 generator. -/
def gy : Nat := 0x483ada7726a3c4655da4fbfc0e1108a8fd17b448a68554199c47d08ffb10d4b8

/-- The secp256k1 generator as a `Point`. -/
def gPoint : Point := ⟨(gx, gy), by decide⟩

/-- The uncompressed 65-byte encoding of the generator. -/
def gBytes65 : List Byte := 4 :: (natToBeBytes 32 gx ++ natToBeBytes 32 gy)

/-- The uncompressed hexadecimal encoding of the generator. -/
def gHex : String := "0479be667ef9dcbbac55a06295ce870b07029bfcdb2dce28d959f2815b16f81798483ada7726a3c4655da4fbfc0e1108a8fd17b448a68554199c47d08ffb10d4b8"

/-! ## Helper lemmas -/

/-- `natToBeBytes` always produces the requested width. -/
theorem length_natToBeBytes (k : Nat) : ∀ n, (natToBeBytes k n).length = k := by
  induction k with
  | zero => intro n; rfl
  | succ k ih =>
    intro n
    simp [natToBeBytes, ih]

/-- Writing a slice past a fixed head skips the head. -/
theorem setRange_cons (src : List Byte) : ∀ (x : Byte) (l : List Byte) (i : Nat),
    setRange (x :: l) (i + 1) src = x :: setRange l i src := by
  induction src with
  | nil => intro x l i; rfl
  | cons b rest ih =>
    intro x l i
    simp only [setRange, List.set_cons_succ]
    exact ih x (l.set i b) (i + 1)

/-- Writing a slice at the start of a sufficiently long buffer replaces
its first `src.length` entries. -/
theorem setRange_zero (src : List Byte) : ∀ l : List Byte, src.length ≤ l.length →
    setRange l 0 src = src ++ l.drop src.length := by
  induction src with
  | nil => intro l _; rfl
  | cons b rest ih =>
    intro l hl
    cases l with
    | nil => simp at hl
    | cons a l' =>
      simp only [setRange, List.set_cons_zero, setRange_cons]
      simp only [List.length_cons, Nat.succ_le_succ_iff] at hl
      rw [ih l' hl]
      simp

/-- The WIF payload built by `fmt_wif` is the version byte, the 32
scalar bytes, and a trailing 1 exactly when the key is compressed. -/
theorem wifPayload_eq (p : PrivateKey) :
    p.wifPayload = versionByte p.network :: (p.key.val ++ if p.compressed then [1] else []) := by
  have hbs : p.key.val.length = 32 := p.key.prop.1
  show (if p.compressed then
      (setRange ((List.replicate 34 0).set 0 (versionByte p.network)) 1 p.key.val).set 33 1
    else
      (setRange ((List.replicate 34 0).set 0 (versionByte p.network)) 1 p.key.val).take 33) = _
  have h0 : (List.replicate 34 (0 : Byte)).set 0 (versionByte p.network)
      = versionByte p.network :: List.replicate 33 0 := by
    rw [show (34 : Nat) = 33 + 1 from rfl, List.replicate_succ]
    rfl
  rw [h0, setRange_cons, setRange_zero p.key.val (List.replicate 33 (0 : Byte)) (by simp [hbs]),
    List.drop_replicate, hbs]
  cases hc : p.compressed
  · have hne : ¬(false = true) := by decide
    rw [if_neg hne, if_neg hne]
    rw [show (33 : Nat) = 32 + 1 from rfl, List.take_cons]
    rw [List.take_append_of_le_length (le_of_eq hbs.symm), List.take_of_length_le (le_of_eq hbs)]
    simp
    decide
  · rw [if_pos rfl, if_pos rfl]
    rw [show (33 : Nat) = 32 + 1 from rfl, List.set_cons_succ, List.set_append]
    simp [hbs]

/-- The length of the WIF payload is 34 for a compressed key, 33
otherwise. -/
theorem wifPayload_length (p : PrivateKey) :
    p.wifPayload.length = if p.compressed then 34 else 33 := by
  rw [wifPayload_eq]
  cases hc : p.compressed <;> simp [p.key.prop.1]

/-- Decoding the version byte written for a non-Regtest network returns
that network. -/
theorem decodeVersionByte_versionByte (n : Network) (h : n ≠ Network.Regtest) :
    decodeVersionByte (versionByte n) = .ok n := by
  cases n with
  | Bitcoin => decide
  | Testnet => decide
  | Regtest => exact absurd rfl h

/-- The backend accepts back exactly the byte string of a valid scalar. -/
theorem from_slice_val (k : SecretKey) : SecretKey.from_slice k.val = .ok k := by
  unfold SecretKey.from_slice
  rw [dif_pos k.prop]
  exact congrArg Except.ok (Subtype.coe_eta k k.prop)

/-- The head of a list survives taking a positive number of elements. -/
theorem headI_take_succ (l : List Byte) (n : Nat) : (l.take (n + 1)).headI = l.headI := by
  cases l <;> simp

/-- Reading back a payload whose head is the version byte of a
non-Regtest network and whose next 32 bytes are a valid scalar yields
the corresponding key with the requested compression flag. -/
theorem readPayload_versioned (k : SecretKey) (n : Network) (hn : n ≠ Network.Regtest)
    (rest : List Byte) (hrest : rest.take 32 = k.val) (cflag : Bool) :
    PrivateKey.readPayload (versionByte n :: rest) cflag = .ok ⟨cflag, n, k⟩ := by
  simp only [PrivateKey.readPayload, List.headI_cons, decodeVersionByte_versionByte n hn,
    List.drop_one, List.tail_cons, hrest, from_slice_val k]

/-- The compression flag of a successfully read payload is the one fixed
by the length gate. -/
theorem readPayload_compressed (data : List Byte) (cflag : Bool) (k : PrivateKey)
    (h : PrivateKey.readPayload data cflag = .ok k) : k.compressed = cflag := by
  unfold PrivateKey.readPayload at h
  split at h
  · exact Except.noConfusion h
  · split at h
    · exact Except.noConfusion h
    · injection h with h'
      subst h'
      rfl

/-! ## Claims -/

/-- Claim C1, amended: decoding the WIF text produced by encoding a
valid `PrivateKey` yields the key back, for every key whose network is
Main or Test. (As stated — over every network — the claim fails: the
WIF round trip of a Regtest key returns the key with network Test, see
`wif_round_trip_fails_for_regtest`.) -/
theorem wif_round_trip (c : Base58Check) (p : PrivateKey) (h : p.network ≠ Network.Regtest) :
    PrivateKey.from_wif c (PrivateKey.to_wif c p) = .ok p := by
  have hbs : p.key.val.length = 32 := p.key.prop.1
  unfold PrivateKey.to_wif PrivateKey.from_wif
  rw [c.from_check_encode]
  show (if p.wifPayload.length = 33 then PrivateKey.readPayload p.wifPayload false
    else if p.wifPayload.length = 34 then PrivateKey.readPayload p.wifPayload true
    else .error (.Base58 (.InvalidLength p.wifPayload.length))) = .ok p
  rw [wifPayload_eq]
  cases hc : p.compressed
  · have hne : ¬(false = true) := by decide
    simp only [if_neg hne, List.append_nil]
    rw [if_pos (by simp [hbs])]
    rw [readPayload_versioned p.key p.network h p.key.val (List.take_of_length_le (le_of_eq hbs)) false]
    rw [← hc]
  · have ht : (if (true = true) then ([1] : List Byte) else []) = [1] := rfl
    rw [ht]
    rw [if_neg (by simp [hbs]), if_pos (by simp [hbs])]
    rw [readPayload_versioned p.key p.network h (p.key.val ++ [1]) (List.take_left' hbs) true]
    rw [← hc]

/-- Claim C1, counterexample to the original statement: the WIF round
trip of a concrete Regtest key does not return that key (its network
comes back as Test). -/
theorem wif_round_trip_fails_for_regtest :
    PrivateKey.from_wif byteStrCodec (PrivateKey.to_wif byteStrCodec pReg) ≠ .ok pReg := by
  decide

/-- Claim C1, witness: the round trip at a concrete main-network key. -/
theorem wif_round_trip_witness :
    pMain.network ≠ Network.Regtest ∧
      PrivateKey.from_wif byteStrCodec (PrivateKey.to_wif byteStrCodec pMain) = .ok pMain :=
  ⟨by decide, wif_round_trip byteStrCodec pMain (by decide)⟩

/-- Claim C2: the network-version table — encoding maps Main (Bitcoin)
to 199 and Test or Regtest to 239; decoding maps 199 to Main, 239 to
Test, and every other byte to `InvalidVersion` carrying that byte. -/
theorem version_byte_table :
    versionByte .Bitcoin = 199 ∧ versionByte .Testnet = 239 ∧ versionByte .Regtest = 239
    ∧ decodeVersionByte 199 = .ok .Bitcoin ∧ decodeVersionByte 239 = .ok .Testnet
    ∧ ∀ b : Byte, b ≠ 199 → b ≠ 239 → decodeVersionByte b = .error (.InvalidVersion [b]) := by
  refine ⟨rfl, rfl, rfl, by decide, by decide, ?_⟩
  intro b h1 h2
  simp [decodeVersionByte, h1, h2]

/-- Claim C2, witness: the unknown-version branch at the concrete byte 7. -/
theorem version_byte_table_witness :
    (7 : Byte) ≠ 199 ∧ (7 : Byte) ≠ 239 ∧
      decodeVersionByte 7 = .error (.InvalidVersion [7]) :=
  ⟨by decide, by decide, version_byte_table.2.2.2.2.2 7 (by decide) (by decide)⟩

/-- Claim C3: when Base58Check decoding succeeds but the payload length
is neither 33 nor 34, `from_wif` returns `InvalidLength` carrying the
observed length — whatever the version byte is, since the length gate
comes first. -/
theorem length_gate (c : Base58Check) (s : String) (data : List Byte)
    (hdec : c.from_check s = .ok data) (h33 : data.length ≠ 33) (h34 : data.length ≠ 34) :
    PrivateKey.from_wif c s = .error (.Base58 (.InvalidLength data.length)) := by
  unfold PrivateKey.from_wif
  rw [hdec]
  show (if data.length = 33 then PrivateKey.readPayload data false
    else if data.length = 34 then PrivateKey.readPayload data true
    else .error (.Base58 (.InvalidLength data.length)))
    = .error (.Base58 (.InvalidLength data.length))
  rw [if_neg h33, if_neg h34]

/-- Claim C3, witness: the empty payload, whose decode fails with
`InvalidLength 0`. -/
theorem length_gate_witness :
    byteStrCodec.from_check "" = .ok [] ∧
      PrivateKey.from_wif byteStrCodec "" = .error (.Base58 (.InvalidLength 0)) :=
  ⟨rfl, length_gate byteStrCodec "" [] rfl (by decide) (by decide)⟩

/-- Claim C4: for checksum-verified 34-byte payloads the decoder sets
`compressed = true` and never inspects byte 33: two 34-byte payloads
agreeing on their first 33 bytes decode identically. -/
theorem compressed_marker_ignored (c : Base58Check) (s1 s2 : String) (d1 d2 : List Byte)
    (h1 : c.from_check s1 = .ok d1) (h2 : c.from_check s2 = .ok d2)
    (hl1 : d1.length = 34) (hl2 : d2.length = 34)
    (hpre : d1.take 33 = d2.take 33) :
    PrivateKey.from_wif c s1 = PrivateKey.from_wif c s2 ∧
      ∀ k, PrivateKey.from_wif c s1 = .ok k → k.compressed = true := by
  have hh : d1.headI = d2.headI := by
    have h := congrArg List.headI hpre
    rwa [headI_take_succ d1 32, headI_take_succ d2 32] at h
  have e1 : (d1.drop 1).take 32 = (d1.take 33).drop 1 := by
    have h := List.drop_take 33 1 d1
    simpa using h.symm
  have e2 : (d2.drop 1).take 32 = (d2.take 33).drop 1 := by
    have h := List.drop_take 33 1 d2
    simpa using h.symm
  have hdt : (d1.drop 1).take 32 = (d2.drop 1).take 32 := by
    rw [e1, e2, hpre]
  have hwif1 : PrivateKey.from_wif c s1 = PrivateKey.readPayload d1 true := by
    unfold PrivateKey.from_wif
    rw [h1]
    show (if d1.length = 33 then PrivateKey.readPayload d1 false
      else if d1.length = 34 then PrivateKey.readPayload d1 true
      else .error (.Base58 (.InvalidLength d1.length))) = _
    rw [if_neg (by rw [hl1]; decide), if_pos hl1]
  have hwif2 : PrivateKey.from_wif c s2 = PrivateKey.readPayload d2 true := by
    unfold PrivateKey.from_wif
    rw [h2]
    show (if d2.length = 33 then PrivateKey.readPayload d2 false
      else if d2.length = 34 then PrivateKey.readPayload d2 true
      else .error (.Base58 (.InvalidLength d2.length))) = _
    rw [if_neg (by rw [hl2]; decide), if_pos hl2]
  constructor
  · rw [hwif1, hwif2]
    unfold PrivateKey.readPayload
    rw [hh, hdt]
  · intro k hk
    rw [hwif1] at hk
    exact readPayload_compressed d1 true k hk

/-- Claim C4, witness: two concrete 34-byte payloads differing only in
their last byte (1 versus 77) decode identically. -/
theorem compressed_marker_ignored_witness :
    (PrivateKey.from_wif byteStrCodec (byteStrCodec.check_encode_slice ((199 : Byte) :: (skOne.val ++ [1])))
      = PrivateKey.from_wif byteStrCodec (byteStrCodec.check_encode_slice ((199 : Byte) :: (skOne.val ++ [77]))))
    ∧ ∀ k, PrivateKey.from_wif byteStrCodec (byteStrCodec.check_encode_slice ((199 : Byte) :: (skOne.val ++ [1]))) = .ok k →
        k.compressed = true :=
  compressed_marker_ignored byteStrCodec _ _ _ _
    (byteStrCodec.from_check_encode _) (byteStrCodec.from_check_encode _)
    (by decide) (by decide) (by decide)

/-- Claim C10: the Debug formatting of a private key is the constant
string, identical for all keys, so nothing about the scalar, network or
compression flag flows into Debug output. -/
theorem debug_fmt_constant :
    (∀ p : PrivateKey, p.debug_fmt = "[private key data]") ∧
      ∀ p q : PrivateKey, p.debug_fmt = q.debug_fmt :=
  ⟨fun _ => rfl, fun _ _ => rfl⟩

/-- The compression flag paired with a parsed point is the one fixed by
the length gate of `from_slice`. -/
theorem withParsedPoint_compressed (data : List Byte) (cflag : Bool) (k : PublicKey)
    (h : PublicKey.withParsedPoint data cflag = .ok k) : k.compressed = cflag := by
  unfold PublicKey.withParsedPoint at h
  split at h
  · exact Except.noConfusion h
  · injection h with h'
    subst h'
    rfl

/-- The backend only parses points out of 33- or 65-byte strings. -/
theorem parsePoint_ok_length (data : List Byte) (pt : Point) (h : parsePoint data = .ok pt) :
    data.length = 33 ∨ data.length = 65 := by
  unfold parsePoint at h
  by_cases h1 : data.length = 65 ∧ data.headI.val = 4
  · exact Or.inr h1.1
  · rw [if_neg h1] at h
    by_cases h2 : data.length = 33 ∧ (data.headI.val = 2 ∨ data.headI.val = 3)
    · exact Or.inl h2.1
    · rw [if_neg h2] at h
      exact Except.noConfusion h

/-- Hexadecimal decoding consumes exactly two characters per byte. -/
theorem hexDecodeList_length : ∀ (cs : List Char) (bs : List Byte),
    hexDecodeList cs = some bs → cs.length = 2 * bs.length
  | [], bs, h => by
    unfold hexDecodeList at h
    injection h with h'
    subst h'
    rfl
  | [_], bs, h => by
    unfold hexDecodeList at h
    exact Option.noConfusion h
  | c1 :: c2 :: rest, bs, h => by
    unfold hexDecodeList at h
    split at h
    · rename_i tail hd1 hd2 hrest
      injection h with h'
      subst h'
      have ih := hexDecodeList_length rest tail hrest
      simp only [List.length_cons, ih]
      ring
    · exact Option.noConfusion h

/-- A scalar accepted by the backend is exactly the input byte string. -/
theorem from_slice_ok_val (d : List Byte) (k : SecretKey)
    (h : SecretKey.from_slice d = .ok k) : k.val = d := by
  unfold SecretKey.from_slice at h
  split at h
  · injection h with h'
    subst h'
    rfl
  · exact Except.noConfusion h

/-- After a successful Base58Check decode, `from_wif` is the length gate
applied to the decoded payload. -/
theorem from_wif_decoded (c : Base58Check) (s : String) (data : List Byte)
    (hdec : c.from_check s = .ok data) :
    PrivateKey.from_wif c s =
      (if data.length = 33 then PrivateKey.readPayload data false
       else if data.length = 34 then PrivateKey.readPayload data true
       else .error (.Base58 (.InvalidLength data.length))) := by
  unfold PrivateKey.from_wif
  rw [hdec]

/-- The scalar of a successfully read payload comes from payload bytes 1
to 32. -/
theorem readPayload_scalar (data : List Byte) (cflag : Bool) (k : PrivateKey)
    (h : PrivateKey.readPayload data cflag = .ok k) :
    k.key.val = (data.drop 1).take 32 := by
  unfold PrivateKey.readPayload at h
  split at h
  · exact Except.noConfusion h
  · split at h
    · exact Except.noConfusion h
    · rename_i key hsl
      injection h with h'
      subst h'
      exact from_slice_ok_val ((data.drop 1).take 32) key hsl

/-- Claim C5: serializing a validly constructed public key always
produces a byte length matching the compression flag — 33 bytes headed
by 2 or 3 when compressed, 65 bytes headed by 4 when uncompressed. -/
theorem to_bytes_length (k : PublicKey) :
    (k.compressed = true →
      k.to_bytes.length = 33 ∧ (k.to_bytes.headI = 2 ∨ k.to_bytes.headI = 3))
    ∧ (k.compressed = false → k.to_bytes.length = 65 ∧ k.to_bytes.headI = 4) := by
  constructor
  · intro hc
    unfold PublicKey.to_bytes
    rw [if_pos hc]
    unfold Point.serialize
    refine ⟨by simp [length_natToBeBytes], ?_⟩
    by_cases hp : k.key.val.2 % 2 = 0
    · rw [if_pos hp]
      exact Or.inl List.headI_cons
    · rw [if_neg hp]
      exact Or.inr List.headI_cons
  · intro hc
    unfold PublicKey.to_bytes
    rw [if_neg (by rw [hc]; exact Bool.false_ne_true)]
    unfold Point.serialize_uncompressed
    exact ⟨by simp [length_natToBeBytes], List.headI_cons⟩

/-- Claim C5, witness: both branches at the generator point. -/
theorem to_bytes_length_witness :
    ((PublicKey.to_bytes ⟨true, gPoint⟩).length = 33
      ∧ ((PublicKey.to_bytes ⟨true, gPoint⟩).headI = 2 ∨ (PublicKey.to_bytes ⟨true, gPoint⟩).headI = 3))
    ∧ ((PublicKey.to_bytes ⟨false, gPoint⟩).length = 65
      ∧ (PublicKey.to_bytes ⟨false, gPoint⟩).headI = 4) :=
  ⟨(to_bytes_length ⟨true, gPoint⟩).1 rfl, (to_bytes_length ⟨false, gPoint⟩).2 rfl⟩

/-- Claim C6: `PublicKey::from_slice` rejects every length other than 33
and 65 with `InvalidLength` carrying that length; on a 33- or 65-byte
slice the compression flag is set from the length, and a backend
rejection of the point surfaces as the wrapped backend error. -/
theorem from_slice_cases (data : List Byte) :
    (data.length ≠ 33 → data.length ≠ 65 →
      PublicKey.from_slice data = .error (.Base58 (.InvalidLength data.length)))
    ∧ (∀ k, PublicKey.from_slice data = .ok k → (k.compressed = true ↔ data.length = 33))
    ∧ (∀ e, parsePoint data = .error e → data.length = 33 ∨ data.length = 65 →
        PublicKey.from_slice data = .error (.Secp256k1 e)) := by
  refine ⟨?_, ?_, ?_⟩
  · intro h33 h65
    unfold PublicKey.from_slice
    rw [if_neg h33, if_neg h65]
  · intro k hk
    unfold PublicKey.from_slice at hk
    by_cases h33 : data.length = 33
    · rw [if_pos h33] at hk
      simp [withParsedPoint_compressed data true k hk, h33]
    · rw [if_neg h33] at hk
      by_cases h65 : data.length = 65
      · rw [if_pos h65] at hk
        simp [withParsedPoint_compressed data false k hk, h33]
      · rw [if_neg h65] at hk
        exact Except.noConfusion hk
  · intro e he hl
    have herr : ∀ cflag, PublicKey.withParsedPoint data cflag = .error (.Secp256k1 e) := by
      intro cflag
      unfold PublicKey.withParsedPoint
      rw [he]
    unfold PublicKey.from_slice
    by_cases h33 : data.length = 33
    · rw [if_pos h33]
      exact herr true
    · rw [if_neg h33]
      have h65 : data.length = 65 := by
        cases hl with
        | inl h => exact absurd h h33
        | inr h => exact h
      rw [if_pos h65]
      exact herr false

/-- Claim C6, witness: the empty slice is rejected with `InvalidLength
0`; the 65-byte generator encoding decodes as uncompressed; a 65-byte
string that is not on the curve is rejected by the backend. -/
theorem from_slice_cases_witness :
    PublicKey.from_slice [] = .error (.Base58 (.InvalidLength 0))
    ∧ ((⟨false, gPoint⟩ : PublicKey).compressed = true ↔ gBytes65.length = 33)
    ∧ PublicKey.from_slice ((4 : Byte) :: List.replicate 64 0)
        = .error (.Secp256k1 .InvalidPublicKey) :=
  ⟨(from_slice_cases []).1 (by decide) (by decide),
   (from_slice_cases gBytes65).2.1 ⟨false, gPoint⟩ (by decide),
   (from_slice_cases ((4 : Byte) :: List.replicate 64 0)).2.2 .InvalidPublicKey
     (by decide) (by decide)⟩

/-- Claim C7: text parsing of a public key is hexadecimal decode followed
by the byte-level point decode, and the compression flag is inferred from
the character count — exactly 66 characters means compressed — agreeing,
on success, with `from_slice` of the decoded bytes. -/
theorem from_str_delegates (s : String) :
    (hexDecode s = none → PublicKey.from_str s = .error (.Secp256k1 .InvalidPublicKey))
    ∧ ∀ k, PublicKey.from_str s = .ok k →
        (k.compressed = true ↔ s.length = 66)
        ∧ ∃ bytes, hexDecode s = some bytes ∧ parsePoint bytes = .ok k.key
          ∧ PublicKey.from_slice bytes = .ok k := by
  constructor
  · intro h
    unfold PublicKey.from_str
    rw [h]
  · intro k hk
    unfold PublicKey.from_str at hk
    split at hk
    · exact Except.noConfusion hk
    · rename_i bytes hd
      split at hk
      · exact Except.noConfusion hk
      · rename_i pt hp
        injection hk with hk'
        subst hk'
        have hsl : s.length = 2 * bytes.length := hexDecodeList_length s.data bytes hd
        have hlen := parsePoint_ok_length bytes pt hp
        refine ⟨by simp, bytes, hd, hp, ?_⟩
        unfold PublicKey.from_slice
        cases hlen with
        | inl h33 =>
          rw [if_pos h33]
          unfold PublicKey.withParsedPoint
          rw [hp]
          have h66 : s.length = 66 := by omega
          simp [h66]
        | inr h65 =>
          rw [if_neg (by omega), if_pos h65]
          unfold PublicKey.withParsedPoint
          rw [hp]
          have h66 : s.length = 130 := by omega
          simp [h66]

/-- Claim C7, witness: a non-hexadecimal string is rejected, and the
130-character generator hex string decodes as uncompressed through the
byte-level decode. -/
theorem from_str_delegates_witness :
    PublicKey.from_str "zz" = .error (.Secp256k1 .InvalidPublicKey)
    ∧ (((⟨false, gPoint⟩ : PublicKey).compressed = true ↔ gHex.length = 66)
      ∧ ∃ bytes, hexDecode gHex = some bytes
          ∧ parsePoint bytes = .ok (⟨false, gPoint⟩ : PublicKey).key
          ∧ PublicKey.from_slice bytes = .ok ⟨false, gPoint⟩) :=
  ⟨(from_str_delegates "zz").1 (by decide),
   (from_str_delegates gHex).2 ⟨false, gPoint⟩ (by decide)⟩

/-- Claim C8: deriving a public key from a private key always succeeds,
takes its point from the backend's scalar multiplication of the private
scalar, and preserves the compression preference; and
`PublicKey::from_private_key` is exactly `PrivateKey::public_key`. -/
theorem public_key_derivation (secp : Secp256k1) (p : PrivateKey) :
    (p.public_key secp).compressed = p.compressed
    ∧ (p.public_key secp).key = secp.from_secret_key p.key
    ∧ PublicKey.from_private_key secp p = p.public_key secp :=
  ⟨rfl, rfl, rfl⟩

/-- Claim C9: the payload handed to Base58Check by the encoder is the
version byte, then the 32 scalar bytes unmodified, then a trailing 1
exactly when compressed (so 34 bytes compressed, 33 uncompressed), and
the decoder reads the scalar back from payload bytes 1 to 32. -/
theorem wif_payload_layout (p : PrivateKey) (c : Base58Check) (s : String) (data : List Byte) :
    p.wifPayload = versionByte p.network :: (p.key.val ++ if p.compressed then [1] else [])
    ∧ p.wifPayload.length = (if p.compressed then 34 else 33)
    ∧ PrivateKey.to_wif c p = c.check_encode_slice p.wifPayload
    ∧ (c.from_check s = .ok data → ∀ k, PrivateKey.from_wif c s = .ok k →
        k.key.val = (data.drop 1).take 32) := by
  refine ⟨wifPayload_eq p, wifPayload_length p, rfl, ?_⟩
  intro hdec k hk
  rw [from_wif_decoded c s data hdec] at hk
  by_cases h33 : data.length = 33
  · rw [if_pos h33] at hk
    exact readPayload_scalar data false k hk
  · rw [if_neg h33] at hk
    by_cases h34 : data.length = 34
    · rw [if_pos h34] at hk
      exact readPayload_scalar data true k hk
    · rw [if_neg h34] at hk
      exact Except.noConfusion hk

/-- Claim C9, witness: the decoder of a concrete round trip reads the
scalar back from bytes 1 to 32 of the concrete payload. -/
theorem wif_payload_layout_witness :
    pMain.key.val = (pMain.wifPayload.drop 1).take 32 :=
  (wif_payload_layout pMain byteStrCodec (PrivateKey.to_wif byteStrCodec pMain) pMain.wifPayload).2.2.2
    (byteStrCodec.from_check_encode pMain.wifPayload) pMain (by decide)
